import Mathlib

/-!
Verification development for the Web-build-ai repository.

The definitions below are a shallow embedding of the core of the
repository: the sandbox path resolution, the tool implementations, the
Groq tool-calling loop of website_mcp.py, the embedding cache of
embedding_manager.py and the build orchestrator of autonomous_builder.py.
External effects (the filesystem, the subprocess runner, the reasoning
engine) are made explicit: the filesystem is a finite map threaded through
the tool functions, the subprocess runner and platform probe live in an
environment record, and the reasoning engine is a script of responses.
Paths are modelled at the character level, following the POSIX semantics
of os.path.join / os.path.abspath that the source relies on.
-/

namespace WebBuild

/-- Split a character list on the slash character, as posixpath's
normalization does with path.split(sep). The accumulator holds the
current component, reversed. -/
def splitSlashAux : List Char → List Char → List (List Char)
  | [], acc => [acc.reverse]
  | c :: rest, acc =>
    if c = '/' then acc.reverse :: splitSlashAux rest []
    else splitSlashAux rest (c :: acc)

/-- Split a path's characters into slash-separated components. -/
def splitSlash (cs : List Char) : List (List Char) :=
  splitSlashAux cs []

/-- The component-normalization loop of posixpath.normpath restricted to
absolute inputs: empty and dot components are dropped, a dot-dot
component pops the previous component (and is dropped at the root). -/
def normComponents : List (List Char) → List (List Char) → List (List Char)
  | [], acc => acc
  | c :: rest, acc =>
    if c = [] ∨ c = ['.'] then normComponents rest acc
    else if c = ['.', '.'] then normComponents rest acc.dropLast
    else normComponents rest (acc ++ [c])

/-- posixpath.normpath keeps exactly two leading slashes (a POSIX
implementation-defined root), collapses any other run of leading slashes
to one, and yields no leading slash for relative input. -/
def leadingSlashPrefix (cs : List Char) : List Char :=
  if ['/', '/', '/'].isPrefixOf cs then ['/']
  else if ['/', '/'].isPrefixOf cs then ['/', '/']
  else if ['/'].isPrefixOf cs then ['/']
  else []

/-- Join path components with slashes (no leading slash). -/
def joinComps : List (List Char) → List Char
  | [] => []
  | [c] => c
  | c :: rest => c ++ '/' :: joinComps rest

/-- os.path.abspath on an already-absolute POSIX path: normalize the
components and reattach the leading slash (or double slash). -/
def abspathData (p : List Char) : List Char :=
  leadingSlashPrefix p ++ joinComps (normComponents (splitSlash p) [])

/-- The sandbox root of website_mcp.py:
SANDBOX = os.path.abspath(os.path.join(os.path.dirname(__file__), "site-dir")).
The directory containing the source file is modelled as /repo, so the
root is the normalized absolute path /repo/site-dir. -/
def SANDBOX : String := "/repo/site-dir"

/-- Python str.startswith: prefix test on the character sequences. -/
def pyStartswith (s pre : String) : Bool :=
  pre.data.isPrefixOf s.data

/-- os.path.join(base, rel) for a base with no trailing slash: an
absolute rel replaces the base, otherwise the parts are joined with a
single slash. -/
def joinPath (base rel : String) : String :=
  if pyStartswith rel "/" then rel else base ++ "/" ++ rel

/-- The characters of os.path.abspath(os.path.join(SANDBOX, rel)), the
resolved absolute path sandbox_path computes. -/
def resolvedData (rel : String) : List Char :=
  abspathData (joinPath SANDBOX rel).data

/-- sandbox_path from website_mcp.py: resolve rel against SANDBOX with
os.path.abspath and accept the result only when it starts with
SANDBOX + os.sep, raising ValueError("Path escapes sandbox") otherwise.
The raised ValueError is modelled as the error branch of Except. -/
def sandbox_path (rel : String) : Except String String :=
  if (SANDBOX.data ++ ['/']).isPrefixOf (resolvedData rel) then
    Except.ok (String.mk (resolvedData rel))
  else Except.error "Path escapes sandbox"

/-- The normalized components of the sandbox root. -/
def sandboxComps : List (List Char) := ["repo".data, "site-dir".data]

/-- rel resolves to a strict descendant of the sandbox root: the
resolution keeps the ordinary single leading slash (rather than the
distinguished double-slash root) and its components strictly extend the
root's components. -/
def sandboxStrictDescendant (rel : String) : Prop :=
  leadingSlashPrefix (joinPath SANDBOX rel).data = ['/'] ∧
  ∃ suf, suf ≠ [] ∧
    normComponents (splitSlash (joinPath SANDBOX rel).data) [] = sandboxComps ++ suf

/-- Python string slicing s[:n]: the first n characters. -/
def pySlice (s : String) (n : Nat) : String :=
  String.mk (s.data.take n)

/-- Python str.splitlines on the character level, for the line
terminators the generated text uses (newline, carriage return, and the
carriage-return/newline pair; the rarer unicode terminators are outside
the model). No trailing empty line is produced. -/
def splitlinesAux : List Char → List Char → List (List Char)
  | [], [] => []
  | [], acc => [acc.reverse]
  | '\r' :: '\n' :: rest, acc => acc.reverse :: splitlinesAux rest []
  | '\n' :: rest, acc => acc.reverse :: splitlinesAux rest []
  | '\r' :: rest, acc => acc.reverse :: splitlinesAux rest []
  | c :: rest, acc => splitlinesAux rest (c :: acc)

/-- str.splitlines as a function on strings. -/
def splitlines (s : String) : List String :=
  (splitlinesAux s.data []).map String.mk

/-- Join strings with newlines, as "\n".join does. -/
def joinNL : List String → String
  | [] => ""
  | [s] => s
  | s :: rest => s ++ "\n" ++ joinNL rest

/-- difflib.unified_diff (with lineterm "") at the level the development
needs: it yields no lines exactly when the two line sequences are equal,
and otherwise yields the two file headers followed by hunk lines. The
hunk is modelled as a full deletion followed by a full insertion; no
claim inspects the hunk's internal shape, only whether the diff is
empty. -/
def unified_diff (a b : List String) : List String :=
  if a = b then []
  else "--- " :: "+++ " :: (a.map (fun l => "-" ++ l) ++ b.map (fun l => "+" ++ l))

/-- The diff string computed by write_file:
"\n".join(difflib.unified_diff(old.splitlines(), content.splitlines(), lineterm="")). -/
def unified_diff_str (old new : String) : String :=
  joinNL (unified_diff (splitlines old) (splitlines new))

/-- Association-list lookup keyed by strings (models dict access and the
per-path filesystem content). -/
def lookupA {α : Type} : List (String × α) → String → Option α
  | [], _ => none
  | (k, v) :: rest, key => if k = key then some v else lookupA rest key

/-- Association-list update: replace the binding of the key, or append a
new binding. -/
def setA {α : Type} : List (String × α) → String → α → List (String × α)
  | [], key, v => [(key, v)]
  | (k, w) :: rest, key, v =>
    if k = key then (key, v) :: rest else (k, w) :: setA rest key v

/-- The mutable world the tools act on: the sandbox's files keyed by
absolute path, the write log (whose wall-clock timestamp from
time.strftime is abstracted away, leaving the relative path and the diff
of each entry), the embedding index of embedding_manager.py keyed by
relative path, and a counter of model.encode invocations standing for
the derived-artifact (vector) recomputations. The persisted forms of the
log and the index are modelled as dedicated fields rather than files. -/
structure FS where
  files : List (String × String)
  logEntries : List (String × String)
  embedIndex : List (String × String)
  encodeCalls : Nat
deriving DecidableEq, Repr

/-- The empty sandbox. -/
def FS.empty : FS := ⟨[], [], [], 0⟩

/-- hashlib.sha256(text).hexdigest(), modelled as an injective
fingerprint of the text (the identity), since the development depends
only on digest equality tracking text equality. -/
def sha256_hexdigest (text : String) : String := text

/-- EmbeddingManager.update_file from embedding_manager.py, in the state
where the sentence-transformer model loaded (self.model is set): resolve
the path against the root, bail out silently when the result does not
start with the root (no separator appended, as in the source), or when
the file is missing; hash the current content; skip all work when the
stored hash matches; otherwise encode a fresh vector (counted by
encodeCalls) and replace the index entry. -/
def update_file (fs : FS) (rel : String) : FS :=
  if ¬ pyStartswith (String.mk (resolvedData rel)) SANDBOX then fs
  else
    match lookupA fs.files (String.mk (resolvedData rel)) with
    | none => fs
    | some text =>
      match lookupA fs.embedIndex rel with
      | some h =>
        if h = sha256_hexdigest text then fs
        else { fs with embedIndex := setA fs.embedIndex rel (sha256_hexdigest text),
                       encodeCalls := fs.encodeCalls + 1 }
      | none => { fs with embedIndex := setA fs.embedIndex rel (sha256_hexdigest text),
                          encodeCalls := fs.encodeCalls + 1 }

/-- write_file from website_mcp.py: resolve the path (propagating the
ValueError of sandbox_path), read the prior content (empty when the file
is new), overwrite, run the embedding hook, compute the unified diff,
append one log entry, and return the status string with the diff
truncated to its first 1000 characters. The OSError fallbacks of the
source (unreadable prior content, unwritable log) do not arise in the
model, where reads and the log append always succeed. -/
def write_file (fs : FS) (path content : String) : Except String (String × FS) :=
  match sandbox_path path with
  | Except.error e => Except.error e
  | Except.ok full =>
    let old := (lookupA fs.files full).getD ""
    let fs1 : FS := { fs with files := setA fs.files full content }
    let fs2 := update_file fs1 path
    let diff := unified_diff_str old content
    let fs3 : FS := { fs2 with logEntries := fs2.logEntries ++ [(path, diff)] }
    let summary := if old = "" then "created" else "updated"
    Except.ok (summary ++ " " ++ path ++ "\n" ++ pySlice diff 1000, fs3)

/-- read_file from website_mcp.py: resolve the path (propagating the
ValueError of sandbox_path) and return the full content; a missing file
raises FileNotFoundError from open, modelled as an error value naming
the exception. -/
def read_file (fs : FS) (path : String) : Except String String :=
  match sandbox_path path with
  | Except.error e => Except.error e
  | Except.ok full =>
    match lookupA fs.files full with
    | none => Except.error ("FileNotFoundError: " ++ full)
    | some text => Except.ok text

/-- list_files from website_mcp.py: the path of every file under the
sandbox, relative to the root. The os.walk traversal order is modelled
as the order of the file map. -/
def list_files (fs : FS) : List String :=
  fs.files.filterMap (fun p =>
    if (SANDBOX.data ++ ['/']).isPrefixOf p.1.data then
      some (String.mk (p.1.data.drop (SANDBOX.data.length + 1)))
    else none)

/-- The outcome of subprocess.run for one shell command: either a
completed process's combined stdout/stderr text, or a TimeoutExpired
carrying the optional partial stdout and stderr captured so far. -/
inductive ProcOutcome where
  | completed (stdout : String)
  | timedOut (stdout stderr : Option String)
deriving DecidableEq, Repr

/-- The external world of the tools: the subprocess runner (a function
of the command, the working directory, and the timeout in seconds), the
platform.platform() description, the Node.js probe, and the npm
scaffolding step of init_react_project (whose failure exception text is
the error branch). -/
structure Env where
  exec : String → String → Nat → ProcOutcome
  osInfo : String
  nodeOk : Bool
  nodeVer : String
  scaffold : FS → Except String FS

/-- Models the run-command tool of website_mcp.py (a reserved Lean token
forces the camel-case name): run the shell command in the sandbox with a
30-second timeout; a timeout yields the partial output with the timeout
marker appended instead of raising; the result is truncated to 4096
characters. -/
def runCmd (env : Env) (cmd : String) : String :=
  match env.exec cmd SANDBOX 30 with
  | ProcOutcome.completed out => pySlice out 4096
  | ProcOutcome.timedOut so se =>
    pySlice ((so.getD "") ++ (se.getD "") ++ "\n<timeout>") 4096

/-- Python str.lower restricted to the ASCII case mapping used by the
doc-search comparisons. -/
def pyLower (s : String) : String :=
  String.mk (s.data.map Char.toLower)

/-- Python "sub in text" as a character-level infix test. -/
def pyContains (text sub : String) : Bool :=
  decide (sub.data <:+: text.data)

/-- Python str.endswith for one suffix. -/
def pyEndswith (s suf : String) : Bool :=
  suf.data.isSuffixOf s.data

/-- The basename of an absolute path (the walk of the source hands the
bare filename f to the match list). -/
def baseName (p : String) : String :=
  String.mk ((splitSlash p.data).getLastD [])

/-- search_docs from website_mcp.py: scan the text and markdown files
under the docs subdirectory for a case-insensitive substring match,
collect filename plus a 2000-character snippet per hit, join the hits
with blank lines and truncate the whole to 4096 characters. -/
def search_docs (fs : FS) (query : String) : String :=
  let docsPrefix := SANDBOX ++ "/docs/"
  let q := pyLower query
  let results := fs.files.filterMap (fun p =>
    if pyStartswith p.1 docsPrefix
        ∧ (pyEndswith (pyLower (baseName p.1)) ".txt"
            ∨ pyEndswith (pyLower (baseName p.1)) ".md")
        ∧ pyContains (pyLower p.2) q then
      some (baseName p.1 ++ ":\n" ++ pySlice p.2 2000)
    else none)
  pySlice (String.intercalate "\n\n" results) 4096

/-- get_os from website_mcp.py. -/
def get_os (env : Env) : String := env.osInfo

/-- init_react_project from website_mcp.py: refuse without Node.js 20+,
no-op when package.json already exists, otherwise scaffold through npm,
turning any exception into an error string instead of raising. -/
def init_react_project (env : Env) (fs : FS) : String × FS :=
  if ¬ env.nodeOk then ("Node.js 20+ required. " ++ env.nodeVer, fs)
  else if (lookupA fs.files (SANDBOX ++ "/package.json")).isSome then
    ("React project already initialized", fs)
  else
    match env.scaffold fs with
    | Except.ok fs1 => ("React environment ready", fs1)
    | Except.error e => ("Failed to set up React: " ++ e, fs)

/-- The argument object a tool call carries once json.loads succeeded on
a JSON object: the keys the dispatcher reads with args.get. A missing
key is none (args.get then supplies the empty-string default). -/
structure ArgObj where
  path : Option String
  content : Option String
  cmd : Option String
  query : Option String
deriving DecidableEq, Repr

/-- The empty argument dictionary. -/
def ArgObj.empty : ArgObj := ⟨none, none, none, none⟩

/-- The raw arguments string of a tool call, seen through json.loads: a
malformed string raises JSONDecodeError (and the dispatcher substitutes
the empty dictionary), a well-formed one yields its object. An absent or
empty arguments string parses as the empty object via the "or" default
in the source. -/
inductive RawArgs where
  | malformed
  | parsed (o : ArgObj)
deriving DecidableEq, Repr

/-- One tool call requested by the model: its id, function name, and raw
arguments. -/
structure ToolCallRec where
  id : String
  name : String
  args : RawArgs
deriving DecidableEq, Repr

/-- The content of a tool-result message: the tool implementations
return a string, except list_files which returns a list of strings that
is appended to the conversation as-is. -/
inductive ToolContent where
  | text (s : String)
  | strList (l : List String)
deriving DecidableEq, Repr

/-- A conversation message, covering the dictionary shapes the source
builds: the seed system and user messages, an assistant message carrying
text, an assistant message carrying tool calls (content None), and a
tool-result message. -/
inductive Msg where
  | system (content : String)
  | user (content : String)
  | assistantText (content : String)
  | assistantCalls (calls : List ToolCallRec)
  | toolResult (id : String) (content : ToolContent)
deriving DecidableEq, Repr

/-- The per-call dispatch of the Groq loop in website_mcp.py: decode the
arguments (an undecodable string degrades to the empty dictionary),
branch on the tool name with empty-string defaults for missing keys, and
fall through to the unknown-tool string. Exceptions raised by the tool
implementations (sandbox escapes, missing files) are NOT caught by the
source here, so they surface as the error branch. -/
def dispatchCall (env : Env) (fs : FS) (c : ToolCallRec) : Except String (ToolContent × FS) :=
  let args := match c.args with
    | RawArgs.malformed => ArgObj.empty
    | RawArgs.parsed o => o
  if c.name = "write_file" then
    match write_file fs (args.path.getD "") (args.content.getD "") with
    | Except.error e => Except.error e
    | Except.ok (r, fs1) => Except.ok (ToolContent.text r, fs1)
  else if c.name = "read_file" then
    match read_file fs (args.path.getD "") with
    | Except.error e => Except.error e
    | Except.ok r => Except.ok (ToolContent.text r, fs)
  else if c.name = "list_files" then
    Except.ok (ToolContent.strList (list_files fs), fs)
  else if c.name = "run_cmd" then
    Except.ok (ToolContent.text (runCmd env (args.cmd.getD "")), fs)
  else if c.name = "search_docs" then
    Except.ok (ToolContent.text (search_docs fs (args.query.getD "")), fs)
  else if c.name = "get_os" then
    Except.ok (ToolContent.text (get_os env), fs)
  else if c.name = "init_react_project" then
    let r := init_react_project env fs
    Except.ok (ToolContent.text r.1, r.2)
  else
    Except.ok (ToolContent.text ("Unknown tool: " ++ c.name), fs)

/-- The inner for-loop of the Groq turn: dispatch each call in order,
appending one tool-result message per successful call; an uncaught tool
exception aborts the whole batch. -/
def runCalls (env : Env) : List ToolCallRec → FS → List Msg → Except String (FS × List Msg)
  | [], fs, conv => Except.ok (fs, conv)
  | c :: cs, fs, conv =>
    match dispatchCall env fs c with
    | Except.error e => Except.error e
    | Except.ok (content, fs1) =>
      runCalls env cs fs1 (conv ++ [Msg.toolResult c.id content])

/-- One chat-completion response of the Groq API: either a message with
a (nonempty) tool_calls list, or a final message whose content may be
None. -/
inductive EngineResp where
  | calls (cs : List ToolCallRec)
  | final (content : Option String)
deriving DecidableEq, Repr

/-- The while-True loop of the Groq backend, driven by a script of
successive API responses. A calls response appends the assistant
tool-call message, dispatches the batch and continues; a final response
returns its content (the empty string when the content is None). The
caller's message list is threaded through untouched — only the local
conversation grows. An exhausted script stands for an unavailable
engine, a transport failure outside the loop's own behaviour. -/
def runGroqLoop (env : Env) :
    List EngineResp → FS → List Msg → List Msg →
    Except String (String × FS × List Msg × List Msg)
  | [], _, _, _ => Except.error "transport: no response"
  | EngineResp.final c :: _, fs, caller, conv =>
    Except.ok (c.getD "", fs, caller, conv)
  | EngineResp.calls cs :: rest, fs, caller, conv =>
    match runCalls env cs fs (conv ++ [Msg.assistantCalls cs]) with
    | Except.error e => Except.error e
    | Except.ok (fs1, conv1) => runGroqLoop env rest fs1 caller conv1

/-- Models the private Groq runner of website_mcp.py: the local
conversation starts as a copy of the caller's messages (the slice
messages[:] in the source), so the loop's appends never reach the
caller's list, which is modelled as the third component threaded through
the loop. -/
def run_groq (env : Env) (script : List EngineResp) (fs : FS) (messages : List Msg) :
    Except String (String × FS × List Msg × List Msg) :=
  runGroqLoop env script fs messages messages

/-- The system preamble of autonomous_builder.py for plain HTML builds. -/
def SYSTEM_PROMPT : String :=
  "You are an expert web developer. Use write_file to create or overwrite " ++
  "files when building the site. Provide paths relative to the site-dir " ++
  "sandbox such as 'index.html' or 'css/style.css' \u2013 do not prefix them " ++
  "with 'site-dir/'. Replace existing files when refining the project."

/-- The system preamble of autonomous_builder.py for React builds. -/
def SYSTEM_PROMPT_REACT : String :=
  "You are an expert React developer. First call get_os to check the system, " ++
  "then call init_react_project once to set up the environment. Use write_file " ++
  "for JSX components under site-dir/src and run npm scripts with run_cmd when " ++
  "needed."

/-- The fixed refine instruction injected between build turns. -/
def REFINE_PROMPT : String :=
  "Please refine the website. Replace any older files with improved versions and add new code as needed."

/-- The conversation a build turn sends: from the second turn on, the
refine instruction is appended first. -/
def withRefine (step : Nat) (msgs : List Msg) : List Msg :=
  if step > 0 then msgs ++ [Msg.user REFINE_PROMPT] else msgs

/-- The outcome of an auto_build run: the conversation as the
orchestrator leaves it and the number of turns performed (invocations of
the reasoning engine). -/
structure BuildResult where
  messages : List Msg
  turns : Nat
deriving DecidableEq, Repr

/-- The for-loop of auto_build: k turns remain, step is the 0-based turn
index. Each turn optionally injects the refine instruction, asks the
engine, and either appends the first character of the reply as an
assistant message (the source appends result[0], not result) and
continues, or stops early on an empty reply. -/
def auto_build_loop (engine : List Msg → String) :
    Nat → Nat → List Msg → Nat → BuildResult
  | 0, _, msgs, turns => ⟨msgs, turns⟩
  | k + 1, step, msgs, turns =>
    let msgs1 := withRefine step msgs
    let result := engine msgs1
    if result = "" then ⟨msgs1, turns + 1⟩
    else auto_build_loop engine k (step + 1)
      (msgs1 ++ [Msg.assistantText (String.mk (result.data.take 1))]) (turns + 1)

/-- auto_build from autonomous_builder.py, for a present spec file whose
text is the spec argument: reject an iteration count below 1 with
ValueError, seed the conversation with the site-type-dependent system
preamble and the spec, then run the turn loop. The reasoning engine
(compound_tool with the chosen model) is the engine argument, a function
of the conversation; the npm steps of the react site type touch no
conversation state and are outside the model. -/
def auto_build (iterations : Int) (engine : List Msg → String)
    (spec siteType : String) : Except String BuildResult :=
  if iterations < 1 then Except.error "iterations must be >= 1"
  else
    let sys := if siteType = "react" then SYSTEM_PROMPT_REACT else SYSTEM_PROMPT
    Except.ok (auto_build_loop engine iterations.toNat 0
      [Msg.system sys, Msg.user spec] 0)

/-- The conversation auto_build ends with (empty on a rejected iteration
count). -/
def auto_build_messages (iterations : Int) (engine : List Msg → String)
    (spec siteType : String) : List Msg :=
  match auto_build iterations engine spec siteType with
  | Except.ok r => r.messages
  | Except.error _ => []

/-- The number of turns auto_build performs (zero on a rejected
iteration count). -/
def auto_build_turns (iterations : Int) (engine : List Msg → String)
    (spec siteType : String) : Nat :=
  match auto_build iterations engine spec siteType with
  | Except.ok r => r.turns
  | Except.error _ => 0

/-- Is a message an assistant message? -/
def isAssistantMsg : Msg → Bool
  | Msg.assistantText _ => true
  | Msg.assistantCalls _ => true
  | _ => false

/-- Is a message an injected refine instruction? -/
def isRefineMsg : Msg → Bool
  | Msg.user c => c = REFINE_PROMPT
  | _ => false

/-- The number of assistant messages in a conversation. -/
def numAssistantMsgs (msgs : List Msg) : Nat :=
  (msgs.filter isAssistantMsg).length

/-- The number of refine instructions in a conversation. -/
def numRefineMsgs (msgs : List Msg) : Nat :=
  (msgs.filter isRefineMsg).length

/-- A neutral environment for concrete runs: every command completes
with empty output, no Node.js, trivial scaffold. -/
def env0 : Env :=
  ⟨fun _ _ _ => ProcOutcome.completed "", "", false, "", fun fs => Except.ok fs⟩

/-- A read_file call for a file that does not exist. -/
def cMissingRead : ToolCallRec :=
  ⟨"call_1", "read_file", RawArgs.parsed ⟨some "missing.txt", none, none, none⟩⟩

/-- A read_file call whose arguments string is not valid JSON. -/
def cMalformedRead : ToolCallRec := ⟨"call_2", "read_file", RawArgs.malformed⟩

/-- A read_file call for the large stored file. -/
def cReadBig : ToolCallRec :=
  ⟨"call_3", "read_file", RawArgs.parsed ⟨some "big.txt", none, none, none⟩⟩

/-- A 5000-character file content, above the 4096 cap. -/
def bigC3 : String := String.mk (List.replicate 5000 'a')

/-- A sandbox holding the large file. -/
def fsC3 : FS := ⟨[("/repo/site-dir/big.txt", bigC3)], [], [], 0⟩

/-- 4096 characters of partial output, exactly filling the cap. -/
def xs4096 : String := String.mk (List.replicate 4096 'x')

/-- An environment whose runner always times out after producing the
cap-filling partial output. -/
def envC8 : Env :=
  ⟨fun _ _ _ => ProcOutcome.timedOut (some xs4096) none, "", false, "", fun fs => Except.ok fs⟩

/-- An environment whose runner always times out after a short partial
output. -/
def envC8w : Env :=
  ⟨fun _ _ _ => ProcOutcome.timedOut (some "partial out") none, "", false, "",
    fun fs => Except.ok fs⟩

/-- A reasoning-engine stub that always answers "ok". -/
def stubOk : List Msg → String := fun _ => "ok"

/-- A reasoning-engine stub that answers "ok" until an assistant message
exists, then answers with the empty string. -/
def stubC7 : List Msg → String :=
  fun msgs => if msgs.any isAssistantMsg then "" else "ok"

/-- A sandbox state holding one file a.txt with newline-terminated
content whose digest is already cached. -/
def fsPreC5 : FS := ⟨[("/repo/site-dir/a.txt", "a\n")], [], [("a.txt", "a\n")], 0⟩

/-- The state after writing w.txt with content x-newline into the empty
sandbox. -/
def fsW1 : FS :=
  ⟨[("/repo/site-dir/w.txt", "x\n")], [("w.txt", "--- \n+++ \n+x")], [("w.txt", "x\n")], 1⟩

/-- The state after rewriting w.txt with identical content. -/
def fsW2 : FS :=
  ⟨[("/repo/site-dir/w.txt", "x\n")], [("w.txt", "--- \n+++ \n+x"), ("w.txt", "")],
    [("w.txt", "x\n")], 1⟩

/-- The state after rewriting w.txt with different content y. -/
def fsW3 : FS :=
  ⟨[("/repo/site-dir/w.txt", "y")],
    [("w.txt", "--- \n+++ \n+x"), ("w.txt", ""), ("w.txt", unified_diff_str "x\n" "y")],
    [("w.txt", "y")], 2⟩

example : sandbox_path "index.html" = Except.ok "/repo/site-dir/index.html" := rfl
example : sandbox_path "css/style.css" = Except.ok "/repo/site-dir/css/style.css" := rfl
example : sandbox_path "../x" = Except.error "Path escapes sandbox" := rfl
example : sandbox_path "/etc/passwd" = Except.error "Path escapes sandbox" := rfl
example : sandbox_path "." = Except.error "Path escapes sandbox" := rfl
example : sandbox_path "" = Except.error "Path escapes sandbox" := rfl
example : sandbox_path "a/../../site-dir/x" = Except.ok "/repo/site-dir/x" := rfl
example : sandbox_path "//repo/site-dir/x" = Except.error "Path escapes sandbox" := rfl
example : abspathData (joinPath SANDBOX ".").data = SANDBOX.data := by decide
example : splitlines "a\n" = ["a"] := by decide
example : splitlines "a" = ["a"] := by decide
example : splitlines "" = [] := by decide
example : splitlines "a\r\nb\nc" = ["a", "b", "c"] := by decide
example : unified_diff_str "a\n" "a" = "" := by decide
example : unified_diff_str "" "x" = "--- \n+++ \n+x" := by decide

/-- Splitting on slashes yields slash-free components. -/
lemma splitSlashAux_no_slash :
    ∀ (cs acc : List Char), '/' ∉ acc → ∀ c ∈ splitSlashAux cs acc, '/' ∉ c := by
  intro cs
  induction cs with
  | nil =>
    intro acc hacc c hc
    simp only [splitSlashAux, List.mem_singleton] at hc
    subst hc
    simpa using hacc
  | cons a rest ih =>
    intro acc hacc c hc
    by_cases ha : a = '/'
    · simp only [splitSlashAux] at hc
      rw [if_pos ha] at hc
      rcases List.mem_cons.mp hc with h1 | h2
      · subst h1; simpa using hacc
      · exact ih [] (by simp) c h2
    · simp only [splitSlashAux] at hc
      rw [if_neg ha] at hc
      refine ih (a :: acc) ?_ c hc
      intro hmem
      rcases List.mem_cons.mp hmem with h1 | h2
      · exact ha h1.symm
      · exact hacc h2

/-- Normalization preserves slash-freeness of the components. -/
lemma normComponents_no_slash :
    ∀ (cs acc : List (List Char)), (∀ c ∈ cs, '/' ∉ c) → (∀ c ∈ acc, '/' ∉ c) →
      ∀ c ∈ normComponents cs acc, '/' ∉ c := by
  intro cs
  induction cs with
  | nil =>
    intro acc _ hacc c hc
    exact hacc c (by simpa [normComponents] using hc)
  | cons a rest ih =>
    intro acc hcs hacc c hc
    have hrest : ∀ c ∈ rest, '/' ∉ c := fun c h => hcs c (List.mem_cons_of_mem _ h)
    simp only [normComponents] at hc
    split_ifs at hc with h1 h2
    · exact ih acc hrest hacc c hc
    · exact ih acc.dropLast hrest (fun x hx => hacc x (List.dropLast_subset acc hx)) c hc
    · refine ih (acc ++ [a]) hrest ?_ c hc
      intro x hx
      rcases List.mem_append.mp hx with h | h
      · exact hacc x h
      · rw [List.mem_singleton] at h
        subst h
        exact hcs x (List.mem_cons_self _ _)

/-- The components of a resolved path are slash-free. -/
lemma comps_no_slash (p : List Char) :
    ∀ c ∈ normComponents (splitSlash p) [], '/' ∉ c :=
  normComponents_no_slash (splitSlash p) []
    (splitSlashAux_no_slash p [] (by simp)) (by simp)

/-- Two slash-free segments followed by a slash separator can only be
prefix-aligned when the segments coincide. -/
lemma slashfree_prefix_eq :
    ∀ (a : List Char), '/' ∉ a → ∀ (b : List Char), '/' ∉ b → ∀ (u v : List Char),
      a ++ '/' :: u <+: b ++ '/' :: v → a = b ∧ u <+: v := by
  intro a
  induction a with
  | nil =>
    intro _ b hb u v h
    cases b with
    | nil =>
      simp only [List.nil_append] at h
      rw [List.cons_prefix_cons] at h
      exact ⟨rfl, h.2⟩
    | cons x b1 =>
      exfalso
      rw [List.nil_append, List.cons_append, List.cons_prefix_cons] at h
      apply hb
      rw [h.1]
      exact List.mem_cons_self x b1
  | cons y a1 ih =>
    intro ha b hb u v h
    cases b with
    | nil =>
      exfalso
      rw [List.cons_append, List.nil_append, List.cons_prefix_cons] at h
      apply ha
      rw [← h.1]
      exact List.mem_cons_self y a1
    | cons x b1 =>
      rw [List.cons_append, List.cons_append, List.cons_prefix_cons] at h
      obtain ⟨hyx, h2⟩ := h
      have ha1 : '/' ∉ a1 := fun hm => ha (List.mem_cons_of_mem _ hm)
      have hb1 : '/' ∉ b1 := fun hm => hb (List.mem_cons_of_mem _ hm)
      obtain ⟨hab, huv⟩ := ih ha1 b1 hb1 u v h2
      exact ⟨by rw [hyx, hab], huv⟩

/-- Characterize when a slash-terminated segment is a string prefix of a
joined component list: exactly when the segment is the first component
and there are further components. -/
lemma prefix_joinComps (comps : List (List Char)) (hc : ∀ c ∈ comps, '/' ∉ c)
    (a u : List Char) (ha : '/' ∉ a) :
    a ++ '/' :: u <+: joinComps comps ↔
      ∃ cs, cs ≠ [] ∧ comps = a :: cs ∧ u <+: joinComps cs := by
  cases comps with
  | nil =>
    simp only [joinComps]
    constructor
    · intro h
      exfalso
      have hnil := List.prefix_nil.mp h
      exact absurd (List.append_eq_nil.mp hnil).2 (List.cons_ne_nil _ _)
    · rintro ⟨cs, -, h, -⟩
      exact absurd h (by simp)
  | cons b cs =>
    cases cs with
    | nil =>
      constructor
      · intro h
        exfalso
        have hmem : '/' ∈ b := h.subset (by simp)
        exact hc b (by simp) hmem
      · rintro ⟨cs1, hne, heq, -⟩
        exfalso
        rw [List.cons.injEq] at heq
        exact hne heq.2.symm
    | cons c cs1 =>
      have hjoin : joinComps (b :: c :: cs1) = b ++ '/' :: joinComps (c :: cs1) := rfl
      rw [hjoin]
      constructor
      · intro h
        obtain ⟨hab, hu⟩ := slashfree_prefix_eq a ha b (hc b (by simp)) u _ h
        exact ⟨c :: cs1, by simp, by rw [hab], hu⟩
      · rintro ⟨cs0, hne, heq, hu⟩
        rw [List.cons.injEq] at heq
        obtain ⟨hba, hcs⟩ := heq
        rw [← hcs] at hu
        rw [← hba]
        exact (List.prefix_append_right_inj b).mpr (List.cons_prefix_cons.mpr ⟨rfl, hu⟩)

/-- The string check of sandbox_path against a single-slash resolved
path holds exactly when the components strictly extend the sandbox
root's components. -/
lemma sandbox_prefix_check (comps : List (List Char)) (hc : ∀ c ∈ comps, '/' ∉ c) :
    SANDBOX.data ++ ['/'] <+: '/' :: joinComps comps ↔
      ∃ suf, suf ≠ [] ∧ comps = "repo".data :: "site-dir".data :: suf := by
  have hrepr : SANDBOX.data ++ ['/'] =
      '/' :: ("repo".data ++ '/' :: ("site-dir".data ++ '/' :: ([] : List Char))) := by decide
  rw [hrepr, List.cons_prefix_cons]
  simp only [eq_self_iff_true, true_and]
  rw [prefix_joinComps comps hc "repo".data _ (by decide)]
  constructor
  · rintro ⟨cs, hne, hcomps, hp⟩
    have hcs : ∀ x ∈ cs, '/' ∉ x := by
      intro x hx
      apply hc x
      rw [hcomps]
      exact List.mem_cons_of_mem _ hx
    rw [prefix_joinComps cs hcs "site-dir".data [] (by decide)] at hp
    obtain ⟨cs2, hne2, hcs2, -⟩ := hp
    exact ⟨cs2, hne2, by rw [hcomps, hcs2]⟩
  · rintro ⟨suf, hne, hcomps⟩
    refine ⟨"site-dir".data :: suf, by simp, by rw [hcomps], ?_⟩
    rw [prefix_joinComps ("site-dir".data :: suf) ?_ "site-dir".data [] (by decide)]
    · exact ⟨suf, hne, rfl, List.nil_prefix⟩
    · intro x hx
      apply hc x
      rw [hcomps]
      exact List.mem_cons_of_mem _ hx

/-- Every path the source joins against the sandbox root is absolute, so
its normalized form keeps one or two leading slashes. -/
lemma lsp_cases (rel : String) :
    leadingSlashPrefix (joinPath SANDBOX rel).data = ['/'] ∨
    leadingSlashPrefix (joinPath SANDBOX rel).data = ['/', '/'] := by
  unfold joinPath
  by_cases h : pyStartswith rel "/"
  · rw [if_pos h]
    unfold pyStartswith at h
    obtain ⟨t, ht⟩ := List.isPrefixOf_iff_prefix.mp h
    have hd : rel.data = '/' :: t := by rw [← ht]; rfl
    rw [hd]
    unfold leadingSlashPrefix
    by_cases h3 : (['/', '/', '/'] : List Char).isPrefixOf ('/' :: t)
    · rw [if_pos h3]; left; rfl
    · rw [if_neg h3]
      by_cases h2 : (['/', '/'] : List Char).isPrefixOf ('/' :: t)
      · rw [if_pos h2]; right; rfl
      · rw [if_neg h2]
        rw [if_pos ?_]
        · left; rfl
        · show (['/'] : List Char).isPrefixOf ('/' :: t) = true
          simp [List.isPrefixOf]
  · rw [if_neg h]
    have key : (SANDBOX ++ "/" ++ rel).data =
        '/' :: 'r' :: ("epo/site-dir/".data ++ rel.data) := rfl
    rw [key]
    unfold leadingSlashPrefix
    rw [if_neg (by simp [List.isPrefixOf]), if_neg (by simp [List.isPrefixOf]),
      if_pos (by simp [List.isPrefixOf])]
    left
    rfl

/-- Amended C1. sandbox_path succeeds, returning the resolved absolute
path, exactly when that path is a STRICT descendant of the sandbox root;
every other input - the root itself included - fails with the
path-escape error, and every success is prefixed by the root plus
separator. -/
theorem sandbox_path_strict_descendant (rel : String) :
    (sandbox_path rel = Except.ok (String.mk (resolvedData rel)) ↔
      sandboxStrictDescendant rel) ∧
    (¬ sandboxStrictDescendant rel →
      sandbox_path rel = Except.error "Path escapes sandbox") ∧
    (sandbox_path rel = Except.ok (String.mk (resolvedData rel)) →
      pyStartswith (String.mk (resolvedData rel)) (SANDBOX ++ "/") = true) := by
  have hco := comps_no_slash (joinPath SANDBOX rel).data
  have hmain : ((SANDBOX.data ++ ['/']).isPrefixOf (resolvedData rel) = true) ↔
      sandboxStrictDescendant rel := by
    rw [List.isPrefixOf_iff_prefix]
    rcases lsp_cases rel with h | h
    · have hres : resolvedData rel =
          '/' :: joinComps (normComponents (splitSlash (joinPath SANDBOX rel).data) []) := by
        unfold resolvedData abspathData
        rw [h]
        rfl
      rw [hres, sandbox_prefix_check _ hco]
      constructor
      · intro hex
        exact ⟨h, hex⟩
      · rintro ⟨-, hex⟩
        exact hex
    · have hres : resolvedData rel =
          '/' :: '/' :: joinComps (normComponents (splitSlash (joinPath SANDBOX rel).data) []) := by
        unfold resolvedData abspathData
        rw [h]
        rfl
      rw [hres]
      constructor
      · intro hpre
        exfalso
        have hrepr : SANDBOX.data ++ ['/'] = '/' :: 'r' :: "epo/site-dir/".data := by decide
        rw [hrepr, List.cons_prefix_cons] at hpre
        obtain ⟨-, hpre2⟩ := hpre
        rw [List.cons_prefix_cons] at hpre2
        exact absurd hpre2.1 (by decide)
      · rintro ⟨h1, -⟩
        rw [h] at h1
        exact absurd h1 (by decide)
  have hiff : sandbox_path rel = Except.ok (String.mk (resolvedData rel)) ↔
      sandboxStrictDescendant rel := by
    unfold sandbox_path
    by_cases hc : (SANDBOX.data ++ ['/']).isPrefixOf (resolvedData rel) = true
    · rw [if_pos hc]
      exact iff_of_true rfl (hmain.mp hc)
    · rw [if_neg hc]
      exact iff_of_false (fun hcon => Except.noConfusion hcon)
        (fun hdd => hc (hmain.mpr hdd))
  refine ⟨hiff, ?_, ?_⟩
  · intro hnd
    unfold sandbox_path
    rw [if_neg (fun hc => hnd (hmain.mp hc))]
  · intro hok
    show (SANDBOX.data ++ ['/']).isPrefixOf (resolvedData rel) = true
    exact hmain.mpr (hiff.mp hok)

/-- C1 counterexample. The relative path "." resolves exactly to the
sandbox root, which the claim says must be allowed, yet sandbox_path
rejects it: the check demands the root-plus-separator prefix, which the
root itself lacks. -/
theorem sandbox_path_rejects_root :
    String.mk (resolvedData ".") = SANDBOX ∧
    sandbox_path "." = Except.error "Path escapes sandbox" := ⟨by decide, rfl⟩

/-- Replacing a binding and looking it up gives the new value. -/
lemma lookupA_setA_self {α : Type} (l : List (String × α)) (k : String) (v : α) :
    lookupA (setA l k v) k = some v := by
  induction l with
  | nil => simp [setA, lookupA]
  | cons p rest ih =>
    obtain ⟨k1, v1⟩ := p
    by_cases h : k1 = k
    · simp [setA, h, lookupA]
    · simp [setA, h, lookupA, ih]

/-- A successful sandbox resolution returns the resolved path, which
starts with the sandbox root. -/
lemma sandbox_path_ok_facts {rel full : String}
    (h : sandbox_path rel = Except.ok full) :
    full = String.mk (resolvedData rel) ∧
    pyStartswith (String.mk (resolvedData rel)) SANDBOX = true := by
  unfold sandbox_path at h
  by_cases hc : (SANDBOX.data ++ ['/']).isPrefixOf (resolvedData rel) = true
  · rw [if_pos hc] at h
    injection h with h1
    refine ⟨h1.symm, ?_⟩
    unfold pyStartswith
    rw [List.isPrefixOf_iff_prefix]
    show SANDBOX.data <+: resolvedData rel
    exact (List.prefix_append SANDBOX.data ['/']).trans (List.isPrefixOf_iff_prefix.mp hc)
  · rw [if_neg hc] at h
    exact absurd h (by simp)

/-- The embedding hook never touches the write log. -/
lemma update_file_logEntries (fs : FS) (rel : String) :
    (update_file fs rel).logEntries = fs.logEntries := by
  unfold update_file
  by_cases hsw : pyStartswith (String.mk (resolvedData rel)) SANDBOX = true
  · rw [if_neg (fun hcon => hcon hsw)]
    cases hf : lookupA fs.files (String.mk (resolvedData rel)) with
    | none => rfl
    | some text =>
      dsimp only
      cases hidx : lookupA fs.embedIndex rel with
      | none => rfl
      | some h0 =>
        dsimp only
        by_cases he : h0 = sha256_hexdigest text
        · rw [if_pos he]
        · rw [if_neg he]
  · rw [if_pos hsw]

/-- The embedding hook never touches the files. -/
lemma update_file_files (fs : FS) (rel : String) :
    (update_file fs rel).files = fs.files := by
  unfold update_file
  by_cases hsw : pyStartswith (String.mk (resolvedData rel)) SANDBOX = true
  · rw [if_neg (fun hcon => hcon hsw)]
    cases hf : lookupA fs.files (String.mk (resolvedData rel)) with
    | none => rfl
    | some text =>
      dsimp only
      cases hidx : lookupA fs.embedIndex rel with
      | none => rfl
      | some h0 =>
        dsimp only
        by_cases he : h0 = sha256_hexdigest text
        · rw [if_pos he]
        · rw [if_neg he]
  · rw [if_pos hsw]

/-- After the embedding hook runs over a present file, the index holds
the digest of that file's content. -/
lemma update_file_index (fs : FS) (rel text : String)
    (hsw : pyStartswith (String.mk (resolvedData rel)) SANDBOX = true)
    (hf : lookupA fs.files (String.mk (resolvedData rel)) = some text) :
    lookupA (update_file fs rel).embedIndex rel = some (sha256_hexdigest text) := by
  unfold update_file
  rw [if_neg (fun hcon => hcon hsw), hf]
  dsimp only
  cases hidx : lookupA fs.embedIndex rel with
  | none =>
    dsimp only
    exact lookupA_setA_self _ _ _
  | some h0 =>
    dsimp only
    by_cases he : h0 = sha256_hexdigest text
    · rw [if_pos he, hidx, he]
    · rw [if_neg he]
      exact lookupA_setA_self _ _ _

/-- When the stored digest already matches the file's content, the
embedding hook does nothing at all. -/
lemma update_file_skip (fs : FS) (rel text : String)
    (hf : lookupA fs.files (String.mk (resolvedData rel)) = some text)
    (hidx : lookupA fs.embedIndex rel = some (sha256_hexdigest text)) :
    update_file fs rel = fs := by
  unfold update_file
  by_cases hsw : pyStartswith (String.mk (resolvedData rel)) SANDBOX = true
  · rw [if_neg (fun hcon => hcon hsw), hf]
    dsimp only
    rw [hidx]
    dsimp only
    rw [if_pos rfl]
  · rw [if_pos hsw]

/-- When the stored digest disagrees with the file's content, the
embedding hook recomputes the vector and replaces the entry. -/
lemma update_file_recompute (fs : FS) (rel text : String)
    (hsw : pyStartswith (String.mk (resolvedData rel)) SANDBOX = true)
    (hf : lookupA fs.files (String.mk (resolvedData rel)) = some text)
    (hdiff : lookupA fs.embedIndex rel ≠ some (sha256_hexdigest text)) :
    (update_file fs rel).embedIndex = setA fs.embedIndex rel (sha256_hexdigest text) ∧
    (update_file fs rel).encodeCalls = fs.encodeCalls + 1 := by
  unfold update_file
  rw [if_neg (fun hcon => hcon hsw), hf]
  dsimp only
  cases hidx : lookupA fs.embedIndex rel with
  | none => exact ⟨rfl, rfl⟩
  | some h0 =>
    dsimp only
    have hne : h0 ≠ sha256_hexdigest text := by
      intro hcon
      rw [hidx, hcon] at hdiff
      exact hdiff rfl
    rw [if_neg hne]
    exact ⟨rfl, rfl⟩

/-- Unfold a successful write into its full effect on the state. -/
lemma write_file_ok_state (fs : FS) (p c r : String) (fs1 : FS)
    (h : write_file fs p c = Except.ok (r, fs1)) :
    sandbox_path p = Except.ok (String.mk (resolvedData p)) ∧
    fs1 = { update_file { fs with files := setA fs.files (String.mk (resolvedData p)) c } p with
            logEntries :=
              (update_file { fs with files := setA fs.files (String.mk (resolvedData p)) c } p).logEntries
                ++ [(p, unified_diff_str ((lookupA fs.files (String.mk (resolvedData p))).getD "") c)] } := by
  cases hsp : sandbox_path p with
  | error e =>
    unfold write_file at h
    rw [hsp] at h
    simp at h
  | ok full =>
    obtain ⟨hfull, -⟩ := sandbox_path_ok_facts hsp
    subst hfull
    unfold write_file at h
    rw [hsp] at h
    simp only [Except.ok.injEq, Prod.mk.injEq] at h
    exact ⟨rfl, h.2.symm⟩

/-- The diff of identical content is empty. -/
lemma unified_diff_str_self (c : String) : unified_diff_str c c = "" := by
  unfold unified_diff_str unified_diff
  rw [if_pos rfl]
  rfl

/-- The diff string is empty exactly when the line decompositions
coincide. -/
lemma unified_diff_str_empty_iff (a b : String) :
    unified_diff_str a b = "" ↔ splitlines a = splitlines b := by
  unfold unified_diff_str unified_diff
  by_cases h : splitlines a = splitlines b
  · rw [if_pos h]
    exact iff_of_true rfl h
  · rw [if_neg h]
    refine iff_of_false ?_ h
    intro hcon
    exact List.cons_ne_nil '-' _ (congrArg String.data hcon)

/-- Amended C5. Every successful write appends exactly one log entry;
rewriting identical content logs an empty diff and leaves the embedding
cache untouched (same entry, no recomputation); rewriting different
content replaces the cache entry with the new digest and recomputes the
vector, while the logged diff is empty exactly when the two contents
split into the same lines - so a change confined to line terminators
still logs an empty diff. -/
theorem write_file_change_tracking :
    (∀ (fs : FS) (p c r : String) (fs1 : FS),
        write_file fs p c = Except.ok (r, fs1) →
        fs1.logEntries.length = fs.logEntries.length + 1) ∧
    (∀ (fs : FS) (p c r1 r2 : String) (fs1 fs2 : FS),
        write_file fs p c = Except.ok (r1, fs1) →
        write_file fs1 p c = Except.ok (r2, fs2) →
        fs2.logEntries = fs1.logEntries ++ [(p, "")] ∧
        fs2.embedIndex = fs1.embedIndex ∧
        fs2.encodeCalls = fs1.encodeCalls) ∧
    (∀ (fs : FS) (p c1 c2 r1 r2 : String) (fs1 fs2 : FS),
        write_file fs p c1 = Except.ok (r1, fs1) →
        write_file fs1 p c2 = Except.ok (r2, fs2) →
        c1 ≠ c2 →
        fs2.logEntries = fs1.logEntries ++ [(p, unified_diff_str c1 c2)] ∧
        lookupA fs2.embedIndex p = some (sha256_hexdigest c2) ∧
        fs2.encodeCalls = fs1.encodeCalls + 1) ∧
    (∀ a b : String, unified_diff_str a b = "" ↔ splitlines a = splitlines b) := by
  have hone : ∀ (fs : FS) (p c r : String) (fs1 : FS),
      write_file fs p c = Except.ok (r, fs1) →
      fs1.logEntries.length = fs.logEntries.length + 1 := by
    intro fs p c r fs1 h
    obtain ⟨-, hfs1⟩ := write_file_ok_state fs p c r fs1 h
    rw [hfs1]
    simp [update_file_logEntries, List.length_append]
  have hfields : ∀ (fs : FS) (p c r : String) (fs1 : FS),
      write_file fs p c = Except.ok (r, fs1) →
      fs1.files = setA fs.files (String.mk (resolvedData p)) c ∧
      fs1.embedIndex =
        (update_file { fs with files := setA fs.files (String.mk (resolvedData p)) c } p).embedIndex ∧
      fs1.encodeCalls =
        (update_file { fs with files := setA fs.files (String.mk (resolvedData p)) c } p).encodeCalls ∧
      fs1.logEntries = fs.logEntries ++
        [(p, unified_diff_str ((lookupA fs.files (String.mk (resolvedData p))).getD "") c)] := by
    intro fs p c r fs1 h
    obtain ⟨-, hfs1⟩ := write_file_ok_state fs p c r fs1 h
    rw [hfs1]
    refine ⟨?_, rfl, rfl, ?_⟩
    · show (update_file { fs with files := setA fs.files (String.mk (resolvedData p)) c } p).files = _
      rw [update_file_files]
    · show (update_file { fs with files := setA fs.files (String.mk (resolvedData p)) c } p).logEntries ++ _ = _
      rw [update_file_logEntries]
  refine ⟨hone, ?_, ?_, unified_diff_str_empty_iff⟩
  · intro fs p c r1 r2 fs1 fs2 h1 h2
    obtain ⟨hsp, -⟩ := write_file_ok_state fs p c r1 fs1 h1
    obtain ⟨-, hsw⟩ := sandbox_path_ok_facts hsp
    obtain ⟨hf1, hi1, he1, -⟩ := hfields fs p c r1 fs1 h1
    obtain ⟨-, hi2, he2, hl2⟩ := hfields fs1 p c r2 fs2 h2
    have hlook1 : lookupA fs1.files (String.mk (resolvedData p)) = some c := by
      rw [hf1]
      exact lookupA_setA_self _ _ _
    have hidx1 : lookupA fs1.embedIndex p = some (sha256_hexdigest c) := by
      rw [hi1]
      exact update_file_index _ p c hsw (by simpa using lookupA_setA_self fs.files _ c)
    have hskip : update_file { fs1 with files := setA fs1.files (String.mk (resolvedData p)) c } p =
        { fs1 with files := setA fs1.files (String.mk (resolvedData p)) c } :=
      update_file_skip _ p c (by simpa using lookupA_setA_self fs1.files _ c) (by simpa using hidx1)
    refine ⟨?_, ?_, ?_⟩
    · rw [hl2, hlook1]
      simp [unified_diff_str_self]
    · rw [hi2, hskip]
    · rw [he2, hskip]
  · intro fs p c1 c2 r1 r2 fs1 fs2 h1 h2 hne
    obtain ⟨hsp, -⟩ := write_file_ok_state fs p c1 r1 fs1 h1
    obtain ⟨-, hsw⟩ := sandbox_path_ok_facts hsp
    obtain ⟨hf1, hi1, he1, -⟩ := hfields fs p c1 r1 fs1 h1
    obtain ⟨-, hi2, he2, hl2⟩ := hfields fs1 p c2 r2 fs2 h2
    have hlook1 : lookupA fs1.files (String.mk (resolvedData p)) = some c1 := by
      rw [hf1]
      exact lookupA_setA_self _ _ _
    have hidx1 : lookupA fs1.embedIndex p = some (sha256_hexdigest c1) := by
      rw [hi1]
      exact update_file_index _ p c1 hsw (by simpa using lookupA_setA_self fs.files _ c1)
    have hrec := update_file_recompute
      { fs1 with files := setA fs1.files (String.mk (resolvedData p)) c2 } p c2
      hsw (by simpa using lookupA_setA_self fs1.files _ c2)
      (by
        show lookupA fs1.embedIndex p ≠ some (sha256_hexdigest c2)
        rw [hidx1]
        intro hcon
        injection hcon with hcon2
        exact hne hcon2)
    refine ⟨?_, ?_, ?_⟩
    · rw [hl2, hlook1]
      rfl
    · rw [hi2, hrec.1]
      exact lookupA_setA_self _ _ _
    · rw [he2, hrec.2]

/-- C5 counterexample. The contents "a\n" and "a" differ, yet rewriting
the file with the second produces an EMPTY logged diff (their line
decompositions coincide), while the cache entry is still replaced: the
claim that different content always yields a non-empty diff fails. -/
theorem write_file_trailing_newline_empty_diff :
    write_file fsPreC5 "a.txt" "a" =
      Except.ok ("updated a.txt\n",
        ⟨[("/repo/site-dir/a.txt", "a")], [("a.txt", "")], [("a.txt", "a")], 1⟩) ∧
    ("a\n" : String) ≠ "a" := ⟨rfl, by decide⟩

/-- Witness for the amended C5 theorem at concrete inputs. -/
theorem write_file_change_tracking_witness :
    fsW1.logEntries.length = FS.empty.logEntries.length + 1 ∧
    (fsW2.logEntries = fsW1.logEntries ++ [("w.txt", "")] ∧
      fsW2.embedIndex = fsW1.embedIndex ∧ fsW2.encodeCalls = fsW1.encodeCalls) ∧
    (fsW3.logEntries = fsW2.logEntries ++ [("w.txt", unified_diff_str "x\n" "y")] ∧
      lookupA fsW3.embedIndex "w.txt" = some (sha256_hexdigest "y") ∧
      fsW3.encodeCalls = fsW2.encodeCalls + 1) ∧
    (unified_diff_str "x\n" "x\n" = "" ↔ splitlines "x\n" = splitlines "x\n") := by
  refine ⟨?_, ?_, ?_, write_file_change_tracking.2.2.2 "x\n" "x\n"⟩
  · exact write_file_change_tracking.1 FS.empty "w.txt" "x\n"
      "created w.txt\n--- \n+++ \n+x" fsW1 rfl
  · exact write_file_change_tracking.2.1 FS.empty "w.txt" "x\n"
      "created w.txt\n--- \n+++ \n+x" "updated w.txt\n" fsW1 fsW2 rfl rfl
  · exact write_file_change_tracking.2.2.1 fsW1 "w.txt" "x\n" "y"
      "updated w.txt\n" "updated w.txt\n--- \n+++ \n-x\n+y" fsW2 fsW3 rfl rfl (by decide)

/-- Running a concatenated batch runs the first part, then the second
on the resulting state. -/
lemma runCalls_append (env : Env) (pre rest : List ToolCallRec) :
    ∀ (fs : FS) (conv : List Msg),
      runCalls env (pre ++ rest) fs conv =
        match runCalls env pre fs conv with
        | Except.error e => Except.error e
        | Except.ok (fs1, conv1) => runCalls env rest fs1 conv1 := by
  induction pre with
  | nil => intro fs conv; rfl
  | cons c cs ih =>
    intro fs conv
    show runCalls env (c :: (cs ++ rest)) fs conv = _
    cases hd : dispatchCall env fs c with
    | error e => simp only [runCalls, hd]
    | ok r =>
      obtain ⟨content, fs1⟩ := r
      simp only [runCalls, hd]
      exact ih fs1 (conv ++ [Msg.toolResult c.id content])

/-- Amended C2. An exception raised by a tool implementation for an
expected condition (missing file, path escape) is NOT converted into a
tool-result message: the Groq loop has no handler around the dispatch,
so the first failing call aborts the whole turn with that exception,
after any earlier calls of the batch already ran. Only malformed
argument strings and unknown tool names are absorbed without aborting. -/
theorem groq_tool_error_aborts_turn (env : Env) (pre : List ToolCallRec)
    (c : ToolCallRec) (post : List ToolCallRec) (rest : List EngineResp)
    (fs fs1 : FS) (caller conv conv1 : List Msg) (e : String)
    (hpre : runCalls env pre fs (conv ++ [Msg.assistantCalls (pre ++ c :: post)]) =
      Except.ok (fs1, conv1))
    (hc : dispatchCall env fs1 c = Except.error e) :
    runGroqLoop env (EngineResp.calls (pre ++ c :: post) :: rest) fs caller conv =
      Except.error e := by
  have hcalls : runCalls env (pre ++ c :: post) fs
      (conv ++ [Msg.assistantCalls (pre ++ c :: post)]) = Except.error e := by
    rw [runCalls_append env pre (c :: post), hpre]
    show runCalls env (c :: post) fs1 conv1 = Except.error e
    simp only [runCalls, hc]
  simp only [runGroqLoop, hcalls]

/-- C2 counterexample. A single read of a missing file crashes the whole
Groq turn with the uncaught FileNotFoundError instead of appending a
tool-result message and continuing. -/
theorem groq_read_missing_aborts :
    run_groq env0 [EngineResp.calls [cMissingRead], EngineResp.final (some "done")]
      FS.empty [] = Except.error "FileNotFoundError: /repo/site-dir/missing.txt" := rfl

/-- Witness for the amended C2 theorem at concrete inputs. -/
theorem groq_tool_error_aborts_turn_witness :
    runGroqLoop env0 [EngineResp.calls [cMissingRead]] FS.empty [] [] =
      Except.error "FileNotFoundError: /repo/site-dir/missing.txt" :=
  groq_tool_error_aborts_turn env0 [] cMissingRead [] [] FS.empty FS.empty [] []
    [Msg.assistantCalls [cMissingRead]] "FileNotFoundError: /repo/site-dir/missing.txt"
    rfl rfl

/-- Amended C9. A tool call whose arguments fail to decode is dispatched
exactly as the same call with the empty argument object - no parse
exception propagates; but because the defaulted arguments give the empty
path, a malformed read_file call then raises the sandbox-escape error,
which (tool exceptions being uncaught) does fail the turn. -/
theorem malformed_args_empty_call (env : Env) (fs : FS) (c : ToolCallRec)
    (h : c.args = RawArgs.malformed) :
    dispatchCall env fs c =
      dispatchCall env fs ⟨c.id, c.name, RawArgs.parsed ArgObj.empty⟩ ∧
    (c.name = "read_file" →
      dispatchCall env fs c = Except.error "Path escapes sandbox") := by
  obtain ⟨id1, name1, args1⟩ := c
  dsimp only at h
  subst h
  constructor
  · rfl
  · intro hname
    dsimp only at hname
    subst hname
    rfl

/-- Witness for the amended C9 theorem at concrete inputs. -/
theorem malformed_args_empty_call_witness :
    dispatchCall env0 FS.empty cMalformedRead =
      dispatchCall env0 FS.empty
        ⟨cMalformedRead.id, cMalformedRead.name, RawArgs.parsed ArgObj.empty⟩ ∧
    (cMalformedRead.name = "read_file" →
      dispatchCall env0 FS.empty cMalformedRead = Except.error "Path escapes sandbox") :=
  malformed_args_empty_call env0 FS.empty cMalformedRead rfl

/-- C9 counterexample. A malformed read_file call does degrade to the
empty-argument call, but that call raises on the defaulted empty path,
and the whole turn fails - contradicting the claim that dispatch never
fails the turn on malformed arguments. -/
theorem malformed_args_fail_turn :
    run_groq env0 [EngineResp.calls [cMalformedRead], EngineResp.final (some "x")]
      FS.empty [] = Except.error "Path escapes sandbox" := rfl

/-- The inner batch loop only appends to the conversation. -/
lemma runCalls_conv_extends (env : Env) :
    ∀ (cs : List ToolCallRec) (fs : FS) (conv : List Msg) (fs1 : FS) (conv1 : List Msg),
      runCalls env cs fs conv = Except.ok (fs1, conv1) → conv <+: conv1 := by
  intro cs
  induction cs with
  | nil =>
    intro fs conv fs1 conv1 h
    simp only [runCalls, Except.ok.injEq, Prod.mk.injEq] at h
    exact h.2 ▸ List.prefix_refl conv
  | cons c cs ih =>
    intro fs conv fs1 conv1 h
    simp only [runCalls] at h
    cases hd : dispatchCall env fs c with
    | error e =>
      rw [hd] at h
      simp at h
    | ok r =>
      obtain ⟨content, fs2⟩ := r
      rw [hd] at h
      dsimp only at h
      exact (List.prefix_append conv [Msg.toolResult c.id content]).trans
        (ih _ _ _ _ h)

/-- The Groq loop never modifies the caller's list and only appends to
its private conversation. -/
lemma runGroqLoop_frame (env : Env) :
    ∀ (script : List EngineResp) (fs : FS) (caller conv : List Msg)
      (t : String) (fs1 : FS) (caller1 conv1 : List Msg),
      runGroqLoop env script fs caller conv = Except.ok (t, fs1, caller1, conv1) →
      caller1 = caller ∧ conv <+: conv1 := by
  intro script
  induction script with
  | nil =>
    intro fs caller conv t fs1 caller1 conv1 h
    simp [runGroqLoop] at h
  | cons r rest ih =>
    intro fs caller conv t fs1 caller1 conv1 h
    cases r with
    | final c =>
      simp only [runGroqLoop, Except.ok.injEq, Prod.mk.injEq] at h
      obtain ⟨-, -, hcal, hconv⟩ := h
      exact ⟨hcal.symm, hconv ▸ List.prefix_refl conv⟩
    | calls cs =>
      simp only [runGroqLoop] at h
      cases hrc : runCalls env cs fs (conv ++ [Msg.assistantCalls cs]) with
      | error e =>
        rw [hrc] at h
        simp at h
      | ok r2 =>
        obtain ⟨fs2, conv2⟩ := r2
        rw [hrc] at h
        dsimp only at h
        obtain ⟨hcal, hpre⟩ := ih fs2 caller conv2 t fs1 caller1 conv1 h
        exact ⟨hcal, ((List.prefix_append conv [Msg.assistantCalls cs]).trans
          (runCalls_conv_extends env cs fs _ fs2 conv2 hrc)).trans hpre⟩

/-- C10. The Groq backend operates on a copy of its input: whatever the
script of responses and however many tool batches run, the caller's
message list comes back unchanged, and the private conversation only
extends the input. -/
theorem run_groq_preserves_messages (env : Env) (script : List EngineResp)
    (fs : FS) (messages : List Msg) (t : String) (fs1 : FS)
    (caller1 conv1 : List Msg)
    (h : run_groq env script fs messages = Except.ok (t, fs1, caller1, conv1)) :
    caller1 = messages ∧ messages <+: conv1 :=
  runGroqLoop_frame env script fs messages messages t fs1 caller1 conv1 h

/-- Witness for the C10 theorem at concrete inputs. -/
theorem run_groq_preserves_messages_witness :
    ([Msg.user "hi"] : List Msg) = [Msg.user "hi"] ∧
    ([Msg.user "hi"] : List Msg) <+: [Msg.user "hi"] :=
  run_groq_preserves_messages env0 [EngineResp.final (some "done")] FS.empty
    [Msg.user "hi"] "done" FS.empty [Msg.user "hi"] [Msg.user "hi"] rfl

/-- A Python slice to n characters never exceeds n characters. -/
lemma pySlice_length_le (s : String) (n : Nat) : (pySlice s n).length ≤ n := by
  show (s.data.take n).length ≤ n
  rw [List.length_take]
  exact min_le_left _ _

/-- Amended C3. The command and search tools cap their payload at 4096
characters, but the read tool does not: its payload is the complete
stored content of the file, however large. -/
theorem tool_result_caps (env : Env) (fs : FS) (cmd q p : String) :
    (runCmd env cmd).length ≤ 4096 ∧
    (search_docs fs q).length ≤ 4096 ∧
    (∀ text, read_file fs p = Except.ok text →
      lookupA fs.files (String.mk (resolvedData p)) = some text) := by
  refine ⟨?_, ?_, ?_⟩
  · unfold runCmd
    cases env.exec cmd SANDBOX 30 with
    | completed out => exact pySlice_length_le _ _
    | timedOut so se => exact pySlice_length_le _ _
  · exact pySlice_length_le _ _
  · intro text h
    unfold read_file at h
    cases hsp : sandbox_path p with
    | error e =>
      rw [hsp] at h
      simp at h
    | ok full =>
      obtain ⟨hfull, -⟩ := sandbox_path_ok_facts hsp
      subst hfull
      rw [hsp] at h
      dsimp only at h
      cases hl : lookupA fs.files (String.mk (resolvedData p)) with
      | none =>
        rw [hl] at h
        simp at h
      | some c =>
        rw [hl] at h
        dsimp only at h
        injection h with h2
        exact congrArg some h2

/-- C3 counterexample. A 5000-character file comes back from the read
tool whole: its tool-result payload exceeds the claimed 4096-byte cap. -/
theorem read_file_uncapped :
    dispatchCall env0 fsC3 cReadBig = Except.ok (ToolContent.text bigC3, fsC3) ∧
    4096 < bigC3.length := by
  refine ⟨rfl, ?_⟩
  show 4096 < (List.replicate 5000 'a').length
  rw [List.length_replicate]
  norm_num

/-- Witness for the amended C3 theorem at concrete inputs. -/
theorem tool_result_caps_witness :
    (runCmd env0 "ls").length ≤ 4096 ∧
    (search_docs fsPreC5 "x").length ≤ 4096 ∧
    lookupA fsPreC5.files (String.mk (resolvedData "a.txt")) = some "a\n" := by
  obtain ⟨h1, h2, h3⟩ := tool_result_caps env0 fsPreC5 "ls" "x" "a.txt"
  exact ⟨h1, h2, h3 "a\n" rfl⟩

/-- Amended C8. On a timeout the command tool returns the partial output
with the timeout marker appended, truncated to 4096 characters; the
marker therefore survives only when the partial output leaves room for
its 10 characters, and the result never exceeds the cap. -/
theorem run_cmd_timeout_contract (env : Env) (cmd : String) (so se : Option String)
    (h : env.exec cmd SANDBOX 30 = ProcOutcome.timedOut so se) :
    runCmd env cmd = pySlice ((so.getD "") ++ (se.getD "") ++ "\n<timeout>") 4096 ∧
    (runCmd env cmd).length ≤ 4096 ∧
    (((so.getD "") ++ (se.getD "")).length + 10 ≤ 4096 →
      "<timeout>".data <:+ (runCmd env cmd).data) := by
  have h1 : runCmd env cmd = pySlice ((so.getD "") ++ (se.getD "") ++ "\n<timeout>") 4096 := by
    unfold runCmd
    rw [h]
  refine ⟨h1, ?_, ?_⟩
  · rw [h1]
    exact pySlice_length_le _ _
  · intro hlen
    rw [h1]
    show "<timeout>".data <:+
      (((so.getD "") ++ (se.getD "") ++ "\n<timeout>").data.take 4096)
    have hdata : ((so.getD "") ++ (se.getD "") ++ "\n<timeout>").data =
        ((so.getD "") ++ (se.getD "")).data ++ "\n<timeout>".data := rfl
    rw [hdata, List.take_of_length_le ?_]
    · exact ⟨((so.getD "") ++ (se.getD "")).data ++ ['\n'],
        by rw [List.append_assoc]; rfl⟩
    · rw [List.length_append]
      exact hlen

/-- C8 counterexample. When the partial output at the moment of timeout
already fills the 4096-character cap, the appended timeout marker is
truncated away entirely: the result is the bare partial output with no
marker in it. -/
theorem run_cmd_timeout_marker_lost :
    runCmd envC8 "sleep 100" = xs4096 ∧
    ¬ "<timeout>".data <:+ (runCmd envC8 "sleep 100").data := by
  have hsd : ∀ a b : String, (a ++ b).data = a.data ++ b.data := fun _ _ => rfl
  have h1 : runCmd envC8 "sleep 100" = xs4096 := by
    have hstart : runCmd envC8 "sleep 100" =
        pySlice (xs4096 ++ "" ++ "\n<timeout>") 4096 := rfl
    rw [hstart]
    unfold pySlice
    rw [hsd, hsd]
    rw [show xs4096.data = List.replicate 4096 'x' from rfl]
    rw [show ("" : String).data = ([] : List Char) from rfl]
    rw [List.append_nil]
    rw [List.take_left' (List.length_replicate 4096 'x')]
    rfl
  refine ⟨h1, ?_⟩
  rw [h1]
  intro hcon
  have hmem : '<' ∈ xs4096.data := hcon.subset (by decide)
  rw [show xs4096.data = List.replicate 4096 'x' from rfl] at hmem
  have hx : '<' = 'x' := List.eq_of_mem_replicate hmem
  exact absurd hx (by decide)

/-- Witness for the amended C8 theorem at concrete inputs. -/
theorem run_cmd_timeout_contract_witness :
    runCmd envC8w "sleep 5" =
      pySlice (((some "partial out").getD "") ++ ((none : Option String).getD "") ++ "\n<timeout>") 4096 ∧
    (runCmd envC8w "sleep 5").length ≤ 4096 ∧
    "<timeout>".data <:+ (runCmd envC8w "sleep 5").data := by
  obtain ⟨h1, h2, h3⟩ := run_cmd_timeout_contract envC8w "sleep 5" (some "partial out") none rfl
  exact ⟨h1, h2, h3 (by decide)⟩

/-- C4. With an engine stub replying "ok", a single build turn appends
the assistant message "o": the source appends result[0], the FIRST
CHARACTER of the turn's final text, not the full string the provider
adapter returned. -/
theorem auto_build_appends_first_char_only :
    auto_build 1 stubOk "Build a site" "html" =
      Except.ok ⟨[Msg.system SYSTEM_PROMPT, Msg.user "Build a site",
        Msg.assistantText "o"], 1⟩ ∧
    ("o" : String) ≠ "ok" := ⟨rfl, by decide⟩

/-- Conversation-count helper: assistant counts add over append. -/
lemma numAssistant_append (l1 l2 : List Msg) :
    numAssistantMsgs (l1 ++ l2) = numAssistantMsgs l1 + numAssistantMsgs l2 := by
  simp [numAssistantMsgs, List.filter_append]

/-- Conversation-count helper: refine counts add over append. -/
lemma numRefine_append (l1 l2 : List Msg) :
    numRefineMsgs (l1 ++ l2) = numRefineMsgs l1 + numRefineMsgs l2 := by
  simp [numRefineMsgs, List.filter_append]

/-- A single assistant text message counts as one assistant message. -/
lemma numAssistant_single (s : String) :
    numAssistantMsgs [Msg.assistantText s] = 1 := rfl

/-- A single assistant text message is not a refine instruction. -/
lemma numRefine_assistant (s : String) :
    numRefineMsgs [Msg.assistantText s] = 0 := rfl

/-- Full behaviour of the build loop under an engine that never returns
empty text: the conversation only grows, each of the k remaining turns
appends exactly one assistant message, the engine is consulted exactly k
times, and the refine instruction is injected before every turn except a
first turn at step 0. -/
lemma auto_build_loop_spec (engine : List Msg → String) (h : ∀ m, engine m ≠ "") :
    ∀ (k step : Nat) (msgs : List Msg) (turns : Nat),
      (∃ tail, (auto_build_loop engine k step msgs turns).messages = msgs ++ tail) ∧
      numAssistantMsgs (auto_build_loop engine k step msgs turns).messages =
        numAssistantMsgs msgs + k ∧
      (auto_build_loop engine k step msgs turns).turns = turns + k ∧
      (0 < step → numRefineMsgs (auto_build_loop engine k step msgs turns).messages =
        numRefineMsgs msgs + k) ∧
      (step = 0 → numRefineMsgs (auto_build_loop engine k step msgs turns).messages =
        numRefineMsgs msgs + (k - 1)) := by
  intro k
  induction k with
  | zero =>
    intro step msgs turns
    refine ⟨⟨[], by simp [auto_build_loop]⟩, ?_, ?_, ?_, ?_⟩
    · simp [auto_build_loop]
    · simp [auto_build_loop]
    · intro _
      simp [auto_build_loop]
    · intro _
      simp [auto_build_loop]
  | succ k ih =>
    intro step msgs turns
    have hstep : auto_build_loop engine (k + 1) step msgs turns =
        auto_build_loop engine k (step + 1)
          (withRefine step msgs ++
            [Msg.assistantText (String.mk ((engine (withRefine step msgs)).data.take 1))])
          (turns + 1) := by
      show (if engine (withRefine step msgs) = "" then _ else _) = _
      rw [if_neg (h _)]
    have hwex : ∃ w, withRefine step msgs = msgs ++ w ∧
        numAssistantMsgs w = 0 ∧
        (0 < step → numRefineMsgs w = 1) ∧ (step = 0 → numRefineMsgs w = 0) := by
      unfold withRefine
      by_cases hs : step > 0
      · rw [if_pos hs]
        exact ⟨[Msg.user REFINE_PROMPT], rfl, rfl, fun _ => rfl,
          fun hz => absurd hz (by omega)⟩
      · rw [if_neg hs]
        exact ⟨[], (List.append_nil msgs).symm, rfl, fun hp => absurd hp hs,
          fun _ => rfl⟩
    obtain ⟨w, hw, hwa, hwr_pos, hwr_zero⟩ := hwex
    rw [hstep, hw]
    obtain ⟨⟨tail, htail⟩, hasst, hturns, href_pos, -⟩ :=
      ih (step + 1)
        ((msgs ++ w) ++
          [Msg.assistantText (String.mk ((engine (msgs ++ w)).data.take 1))])
        (turns + 1)
    refine ⟨?_, ?_, ?_, ?_, ?_⟩
    · refine ⟨w ++ ([Msg.assistantText (String.mk ((engine (msgs ++ w)).data.take 1))] ++ tail), ?_⟩
      rw [htail]
      simp [List.append_assoc]
    · rw [hasst, numAssistant_append, numAssistant_append, hwa, numAssistant_single]
      omega
    · rw [hturns]
      omega
    · intro hp
      rw [href_pos (by omega), numRefine_append, numRefine_append, hwr_pos hp,
        numRefine_assistant]
      omega
    · intro hz
      rw [href_pos (by omega), numRefine_append, numRefine_append, hwr_zero hz,
        numRefine_assistant]
      omega

/-- C6. The orchestrator rejects every iteration count below 1 with
ValueError; with iteration count 3 and an engine stub that never returns
empty text, it appends exactly 3 assistant messages and injects exactly
2 refine instructions beyond the two seed messages. -/
theorem auto_build_iteration_contract (engine : List Msg → String)
    (spec siteType : String) (h : ∀ m, engine m ≠ "") :
    (∀ i : Int, i < 1 →
      auto_build i engine spec siteType = Except.error "iterations must be >= 1") ∧
    (auto_build 3 engine spec siteType).isOk = true ∧
    numAssistantMsgs (auto_build_messages 3 engine spec siteType) = 3 ∧
    numRefineMsgs ((auto_build_messages 3 engine spec siteType).drop 2) = 2 := by
  have h3 : auto_build 3 engine spec siteType =
      Except.ok (auto_build_loop engine 3 0
        [Msg.system (if siteType = "react" then SYSTEM_PROMPT_REACT else SYSTEM_PROMPT),
          Msg.user spec] 0) := by
    unfold auto_build
    rw [if_neg (by norm_num)]
    rfl
  have hmsgs : auto_build_messages 3 engine spec siteType =
      (auto_build_loop engine 3 0
        [Msg.system (if siteType = "react" then SYSTEM_PROMPT_REACT else SYSTEM_PROMPT),
          Msg.user spec] 0).messages := by
    unfold auto_build_messages
    rw [h3]
  set m0 : List Msg :=
    [Msg.system (if siteType = "react" then SYSTEM_PROMPT_REACT else SYSTEM_PROMPT),
      Msg.user spec] with hm0
  obtain ⟨⟨tail, htail⟩, hasst, -, -, hrz⟩ := auto_build_loop_spec engine h 3 0 m0 0
  have hm0a : numAssistantMsgs m0 = 0 := by rw [hm0]; rfl
  refine ⟨?_, ?_, ?_, ?_⟩
  · intro i hi
    unfold auto_build
    rw [if_pos hi]
  · rw [h3]
    rfl
  · rw [hmsgs, hasst, hm0a]
  · rw [hmsgs]
    have hdrop : (auto_build_loop engine 3 0 m0 0).messages.drop 2 = tail := by
      rw [htail, hm0]
      rfl
    rw [hdrop]
    have h1 := hrz rfl
    rw [htail, numRefine_append] at h1
    omega

/-- Witness for the C6 theorem at concrete inputs. -/
theorem auto_build_iteration_contract_witness :
    auto_build 0 stubOk "Make a page" "html" = Except.error "iterations must be >= 1" ∧
    (auto_build 3 stubOk "Make a page" "html").isOk = true ∧
    numAssistantMsgs (auto_build_messages 3 stubOk "Make a page" "html") = 3 ∧
    numRefineMsgs ((auto_build_messages 3 stubOk "Make a page" "html").drop 2) = 2 := by
  obtain ⟨h1, h2, h3, h4⟩ :=
    auto_build_iteration_contract stubOk "Make a page" "html"
      (fun _ hcon => (by decide : ("ok" : String) ≠ "") hcon)
  exact ⟨h1 0 (by norm_num), h2, h3, h4⟩

/-- C7. An empty engine reply ends the build right there, as a normal
return rather than an error: with the stub answering "ok" then "", the
orchestrator performs exactly 2 turns even when asked for 5; and in
general any turn whose engine reply is empty returns immediately after
that turn. -/
theorem auto_build_early_stop :
    (∀ spec : String, auto_build_turns 5 stubC7 spec "html" = 2 ∧
      (auto_build 5 stubC7 spec "html").isOk = true) ∧
    (∀ (engine : List Msg → String) (k step : Nat) (msgs : List Msg) (turns : Nat),
      engine (withRefine step msgs) = "" →
      auto_build_loop engine (k + 1) step msgs turns = ⟨withRefine step msgs, turns + 1⟩) := by
  constructor
  · intro spec
    exact ⟨rfl, rfl⟩
  · intro engine k step msgs turns hempty
    show (if engine (withRefine step msgs) = "" then _ else _) = _
    rw [if_pos hempty]

/-- Witness for the C7 theorem at concrete inputs. -/
theorem auto_build_early_stop_witness :
    auto_build_turns 5 stubC7 "Make a site" "html" = 2 ∧
    auto_build_loop (fun _ => "") 1 0 [] 0 = ⟨[], 1⟩ :=
  ⟨(auto_build_early_stop.1 "Make a site").1,
    auto_build_early_stop.2 (fun _ => "") 0 0 [] 0 rfl⟩

/-- Witness for the amended C1 theorem at concrete inputs. -/
theorem sandbox_path_strict_descendant_witness :
    sandbox_path "index.html" = Except.ok (String.mk (resolvedData "index.html")) ∧
    sandbox_path ".." = Except.error "Path escapes sandbox" ∧
    pyStartswith (String.mk (resolvedData "index.html")) (SANDBOX ++ "/") = true := by
  have hdesc : sandboxStrictDescendant "index.html" :=
    ⟨by decide, ["index.html".data], by decide, by decide⟩
  have hnd : ¬ sandboxStrictDescendant ".." := by
    rintro ⟨-, suf, hne, hcomps⟩
    have hc : normComponents (splitSlash (joinPath SANDBOX "..").data) [] =
        [("repo".data)] := by decide
    rw [hc] at hcomps
    have hlen := congrArg List.length hcomps
    simp [sandboxComps, List.length_append] at hlen
  have hok := (sandbox_path_strict_descendant "index.html").1.mpr hdesc
  exact ⟨hok, (sandbox_path_strict_descendant "..").2.1 hnd,
    (sandbox_path_strict_descendant "index.html").2.2 hok⟩

end WebBuild
